import Mathlib

/-!
Verification of the pentago-web game core (src/unnamed/part_000).

The board is a 6×6 grid of cells (`null | "white" | "black"` in the source),
split into four 3×3 quadrants.  The source contains the game logic twice
(two revisions of the same App file); the first copy defines
`rotateQuadrant`, `hasFive`, `isFull`, `checkWinner`, `applyMove`,
`generateMoves`, `chooseAiMove` (lines 9-157), the second copy (lines
819-1006) has an equivalent `rotateQuadrant` (gather form) and a
line-enumerating `checkWinner`.  Both copies are embedded below and their
agreement is proved.
-/

namespace Pentago

/-- `type Player = "white" | "black"`. -/
inductive Player
  | white
  | black
deriving DecidableEq, Repr

/-- `type CellValue = Player | null`; `none` models `null`. -/
abbrev CellValue := Option Player

/-- A 6×6 board, `b y x` mirroring the source's `board[y][x]`
(row index first, as in `CellValue[][]`). -/
abbrev Board := Fin 6 → Fin 6 → CellValue

/-- Rotation direction `"cw" | "ccw"`. -/
inductive Dir
  | cw
  | ccw
deriving DecidableEq, Repr

instance : Fintype Dir :=
  ⟨⟨{Dir.cw, Dir.ccw}, by decide⟩, by intro x; cases x <;> decide⟩

/-- `type Pos = { x: number; y: number }`, restricted to the 0..5 board range. -/
structure Pos where
  x : Fin 6
  y : Fin 6
deriving DecidableEq, Repr

/-- `type Move = { pos: Pos; quadrant: number; dir: "cw" | "ccw" }`. -/
structure Move where
  pos : Pos
  quadrant : Fin 4
  dir : Dir
deriving DecidableEq, Repr

/-- `createEmptyBoard()`: a 6×6 board of `null`s. -/
def createEmptyBoard : Board := fun _ _ => none

/-- Bounds-checked read `board[y][x]` with natural-number indices. -/
def bget (b : Board) (y x : Nat) : CellValue :=
  if hy : y < 6 then if hx : x < 6 then b ⟨y, hy⟩ ⟨x, hx⟩ else none else none

theorem bget_eq (b : Board) (y x : Fin 6) : bget b y.val x.val = b y x := by
  unfold bget
  rw [dif_pos y.isLt, dif_pos x.isLt]

/-- `const ox = quadrant % 2 === 0 ? 0 : 3` — quadrant x-origin. -/
def quadOx (q : Fin 4) : Nat := if q.val % 2 = 0 then 0 else 3

/-- `const oy = quadrant < 2 ? 0 : 3` — quadrant y-origin. -/
def quadOy (q : Fin 4) : Nat := if q.val < 2 then 0 else 3

theorem quadOx_add_three_le (q : Fin 4) : quadOx q + 3 ≤ 6 := by
  unfold quadOx; split <;> omega

theorem quadOy_add_three_le (q : Fin 4) : quadOy q + 3 ≤ 6 := by
  unfold quadOy; split <;> omega

/-- Cell `(row y, column x)` lies in quadrant `q`'s 3×3 extent. -/
abbrev inQuadrant (q : Fin 4) (y x : Nat) : Prop :=
  quadOy q ≤ y ∧ y < quadOy q + 3 ∧ quadOx q ≤ x ∧ x < quadOx q + 3

/-- `rotateQuadrant(board, quadrant, dir)` of the source's first copy:
it extracts the 3×3 sub-grid `m[y][x] = b[oy+y][ox+x]`, scatters it into
`r` (clockwise `r[x][2-y] = m[y][x]`, counter-clockwise `r[2-x][y] = m[y][x]`)
and writes `r` back at the origin.  The scatter fills each target cell
exactly once, so the written-back board reads, at local target `(ly, lx)`,
the source cell `m[2-lx][ly]` (cw) resp. `m[lx][2-ly]` (ccw) — which is
literally the gather loop of the source's second copy
(`newBoard[startY+y][startX+x] = temp[2-x][y]` / `temp[x][2-y]`). -/
def rotateQuadrant (board : Board) (q : Fin 4) (dir : Dir) : Board :=
  fun y x =>
    if inQuadrant q y.val x.val then
      match dir with
      | .cw => bget board (quadOy q + (2 - (x.val - quadOx q))) (quadOx q + (y.val - quadOy q))
      | .ccw => bget board (quadOy q + (x.val - quadOx q)) (quadOx q + (2 - (y.val - quadOy q)))
    else board y x

/-- The coordinate (row, column) that `rotateQuadrant` reads for target
cell `(y, x)`; identity outside the rotated quadrant. -/
def srcIdxN (q : Fin 4) (d : Dir) (y x : Nat) : Nat × Nat :=
  if inQuadrant q y x then
    match d with
    | .cw => (quadOy q + (2 - (x - quadOx q)), quadOx q + (y - quadOy q))
    | .ccw => (quadOy q + (x - quadOx q), quadOx q + (2 - (y - quadOy q)))
  else (y, x)

theorem rotateQuadrant_apply (b : Board) (q : Fin 4) (d : Dir) (y x : Fin 6) :
    rotateQuadrant b q d y x = bget b (srcIdxN q d y.val x.val).1 (srcIdxN q d y.val x.val).2 := by
  unfold rotateQuadrant srcIdxN
  by_cases h : inQuadrant q y.val x.val
  · rw [if_pos h, if_pos h]
    cases d <;> rfl
  · rw [if_neg h, if_neg h]
    exact (bget_eq b y x).symm

theorem srcIdxN_out_left (q : Fin 4) (d : Dir) (y x : Nat) (hy : 6 ≤ y) :
    srcIdxN q d y x = (y, x) := by
  unfold srcIdxN
  rw [if_neg]
  intro h
  unfold inQuadrant at h
  have := quadOy_add_three_le q
  omega

theorem srcIdxN_out_right (q : Fin 4) (d : Dir) (y x : Nat) (hx : 6 ≤ x) :
    srcIdxN q d y x = (y, x) := by
  unfold srcIdxN
  rw [if_neg]
  intro h
  unfold inQuadrant at h
  have := quadOx_add_three_le q
  omega

theorem bget_rotateQuadrant (b : Board) (q : Fin 4) (d : Dir) (y x : Nat) :
    bget (rotateQuadrant b q d) y x = bget b (srcIdxN q d y x).1 (srcIdxN q d y x).2 := by
  by_cases hy : y < 6
  · by_cases hx : x < 6
    · have h1 : bget (rotateQuadrant b q d) y x = rotateQuadrant b q d ⟨y, hy⟩ ⟨x, hx⟩ := by
        unfold bget; rw [dif_pos hy, dif_pos hx]
      rw [h1, rotateQuadrant_apply]
    · rw [srcIdxN_out_right q d y x (by omega)]
      unfold bget
      rw [dif_pos hy, dif_neg hx, dif_pos hy, dif_neg hx]
  · rw [srcIdxN_out_left q d y x (by omega)]
    unfold bget
    rw [dif_neg hy, dif_neg hy]

/-- `inBounds(x, y)` from the source. -/
def inBounds (x y : Int) : Bool := 0 ≤ x && x < 6 && 0 ≤ y && y < 6

/-- Bounds-checked read `board[y][x]` with integer indices (the diagonal
probes of `hasFive` step with `dy = -1`, so indices can go negative). -/
def bgetI (b : Board) (y x : Int) : CellValue :=
  if hy : 0 ≤ y ∧ y < 6 then
    if hx : 0 ≤ x ∧ x < 6 then b ⟨y.toNat, by omega⟩ ⟨x.toNat, by omega⟩ else none
  else none

/-- The four probe directions of `hasFive`. -/
def dirsList : List (Int × Int) := [(1, 0), (0, 1), (1, 1), (1, -1)]

/-- `hasFive(board, p)` of the source's first copy: from each cell holding
`p`, probe the four directions; the probe succeeds when the next four
cells are in bounds and hold `p`. -/
def hasFive (board : Board) (p : Player) : Bool :=
  (List.range 6).any fun y : Nat =>
    (List.range 6).any fun x : Nat =>
      bget board y x == some p &&
        dirsList.any fun d =>
          (List.range 4).all fun k : Nat =>
            inBounds ((x : Int) + d.1 * ((k : Int) + 1)) ((y : Int) + d.2 * ((k : Int) + 1)) &&
              bgetI board ((y : Int) + d.2 * ((k : Int) + 1)) ((x : Int) + d.1 * ((k : Int) + 1)) == some p

/-- `isFull(board)`: no cell is `null`. -/
def isFull (board : Board) : Bool :=
  (List.range 6).all fun y => (List.range 6).all fun x => !(bget board y x == none)

/-- Return type of `checkWinner`: `Player | "draw" | null` (`null` = game
still ongoing). -/
inductive Outcome
  | white
  | black
  | draw
  | ongoing
deriving DecidableEq, Repr

/-- The `Outcome` meaning "this player wins" (the source compares
`r.winner === ai` between the union type and a `Player`). -/
def winOutcome : Player → Outcome
  | .white => .white
  | .black => .black

/-- `checkWinner(board)` of the source's first copy. -/
def checkWinner (board : Board) : Outcome :=
  let w := hasFive board .white
  let b := hasFive board .black
  if w && b then .draw
  else if w then .white
  else if b then .black
  else if isFull board then .draw
  else .ongoing

/-- `placed[pos.y][pos.x] = player` — pointwise update of the cloned board. -/
def setCell (b : Board) (pos : Pos) (v : CellValue) : Board :=
  fun y x => if y = pos.y ∧ x = pos.x then v else b y x

structure ApplyResult where
  board : Board
  winner : Outcome

/-- `applyMove(board, player, pos, quadrant, dir)`: write the stone at
`pos` (the source performs no occupancy or validity check), rotate the
chosen quadrant, then run the winner check. -/
def applyMove (board : Board) (player : Player) (pos : Pos) (quadrant : Fin 4) (dir : Dir) :
    ApplyResult :=
  let placed := setCell board pos (some player)
  let rotated := rotateQuadrant placed quadrant dir
  { board := rotated, winner := checkWinner rotated }

/-- `generateMoves(board)`: for every empty cell in row-major order
(`y` outer 0..5, `x` inner 0..5), all 4 quadrants × 2 directions,
clockwise pushed before counter-clockwise. -/
def generateMoves (board : Board) : List Move :=
  (List.finRange 6).flatMap fun y =>
    (List.finRange 6).flatMap fun x =>
      if board y x ≠ none then []
      else
        (List.finRange 4).flatMap fun q =>
          [⟨⟨x, y⟩, q, .cw⟩, ⟨⟨x, y⟩, q, .ccw⟩]

/-- The maximal lines enumerated by the second copy's `checkWinner`, in
push order: rows, columns, down-right diagonals (those of length ≥ 5),
then down-left diagonals (length ≥ 5).  Positions are `(x, y)` pairs as
pushed by the source. -/
def linesList : List (List (Int × Int)) :=
  ((List.range 6).map fun y => (List.range 6).map fun x => ((x : Int), (y : Int))) ++
    ((List.range 6).map fun x => (List.range 6).map fun y => ((x : Int), (y : Int))) ++
    ((List.range 6).filterMap fun sy =>
      let line := (List.range (6 - sy)).map fun k => ((Int.ofNat k), (Int.ofNat (sy + k)))
      if 5 ≤ line.length then some line else none) ++
    (((List.range 5).map fun i => i + 1).filterMap fun sx =>
      let line := (List.range (6 - sx)).map fun k => ((Int.ofNat (sx + k)), (Int.ofNat k))
      if 5 ≤ line.length then some line else none) ++
    ((List.range 6).filterMap fun sy =>
      let line := (List.range (6 - sy)).map fun k => ((Int.ofNat (5 - k)), (Int.ofNat (sy + k)))
      if 5 ≤ line.length then some line else none) ++
    (((List.range 5).map fun i => 4 - i).filterMap fun sx =>
      let line := (List.range (sx + 1)).map fun k => ((Int.ofNat (sx - k)), (Int.ofNat k))
      if 5 ≤ line.length then some line else none)

/-- The run-counting scan of the second copy's per-line `hasFive`:
`run` is the current streak of cells holding the player's colour; the scan
returns `true` as soon as the streak reaches 5 and resets it on any other
cell. -/
def runFive {α : Type} (f : α → Bool) : List α → Nat → Bool
  | [], _ => false
  | a :: rest, run =>
    if f a then
      if 5 ≤ run + 1 then true else runFive f rest (run + 1)
    else runFive f rest 0

/-- `hasFive(line, player)` nested inside the second copy's `checkWinner`. -/
def lineHasFive (board : Board) (p : Player) (line : List (Int × Int)) : Bool :=
  runFive (fun pos => bgetI board pos.2 pos.1 == some p) line 0

/-- `checkWinner(board)` of the source's second copy: enumerate maximal
lines, count runs per colour, then apply the combination rule (the
`filled` check is `board.every(row => row.every(cell => cell !== null))`). -/
def checkWinner2 (board : Board) : Outcome :=
  let whiteWin := linesList.any (lineHasFive board .white)
  let blackWin := linesList.any (lineHasFive board .black)
  if whiteWin && blackWin then .draw
  else if whiteWin then .white
  else if blackWin then .black
  else if (List.finRange 6).all (fun y => (List.finRange 6).all fun x => !(board y x == none)) then
    .draw
  else .ongoing

/-- Abstraction of the `Math.random()` draws made by `chooseAiMove`:
`pick n` models `Math.floor(Math.random() * n)` for a list of length `n`
(so `pick n < n` when `0 < n`, and `pick 0 = 0` since `floor(u * 0) = 0`),
and `jitter i` models the `Math.random() * 0.01` added to the score of the
`i`-th candidate. -/
structure Rng where
  pick : Nat → Nat
  pick_lt : ∀ n, 0 < n → pick n < n
  pick_zero : pick 0 = 0
  jitter : Nat → ℚ
  jitter_nonneg : ∀ i, 0 ≤ jitter i
  jitter_lt : ∀ i, jitter i < 1 / 100

/-- The opponent immediate-win counting loop of `chooseAiMove`'s second
phase, with the source's early `break` once the count exceeds 5. -/
def oppWinCountFrom (board : Board) (opp : Player) : List Move → Nat → Nat
  | [], c => c
  | om :: rest, c =>
    let c' := if (applyMove board opp om.pos om.quadrant om.dir).winner == winOutcome opp
      then c + 1 else c
    if 5 < c' then c' else oppWinCountFrom board opp rest c'

/-- Number of immediate winning replies the opponent has on `board`
(capped by the early break). -/
def oppWinCount (board : Board) (opp : Player) : Nat :=
  oppWinCountFrom board opp (generateMoves board) 0

/-- The second phase of `chooseAiMove`: scan the indexed candidates,
keeping the best score.  `none` as the running score models the
`-Infinity` initialisation; `none` as the running best models the
`undefined` that `candidates[Math.floor(Math.random()*length)]` yields on
an empty list. -/
def aiPhase2 (rng : Rng) (board : Board) (ai opp : Player) :
    List (Nat × Move) → Option Move → Option ℚ → Option Move
  | [], best, _ => best
  | (i, m) :: rest, best, bestScore =>
    let afterAi := applyMove board ai m.pos m.quadrant m.dir
    if afterAi.winner == winOutcome ai then some m
    else
      let score : ℚ := -(oppWinCount afterAi.board opp : ℚ) + rng.jitter i
      let improved : Bool :=
        match bestScore with
        | none => true
        | some bs => decide (bs < score)
      if improved then aiPhase2 rng board ai opp rest (some m) (some score)
      else aiPhase2 rng board ai opp rest best bestScore

/-- `chooseAiMove(board, ai)`: phase 1 returns the first candidate whose
simulated outcome is an immediate win for `ai`; otherwise phase 2 scores
every candidate by minus the opponent's immediate-win count plus jitter,
starting from a random fallback candidate.  The result is an `Option`
because on an empty candidate list the source's fallback
`candidates[Math.floor(Math.random() * 0)]` is `undefined` (modelled by
`none`) and is what the function returns. -/
def chooseAiMove (rng : Rng) (board : Board) (ai : Player) : Option Move :=
  let opp : Player := match ai with | .white => .black | .black => .white
  let candidates := generateMoves board
  match candidates.find?
      (fun m => (applyMove board ai m.pos m.quadrant m.dir).winner == winOutcome ai) with
  | some m => some m
  | none =>
    let best := candidates.get? (rng.pick candidates.length)
    aiPhase2 rng board ai opp candidates.enum best none

/-! ### Rotation geometry -/

/-- `bget` with a (row, column) pair. -/
def bgetP (b : Board) (p : Nat × Nat) : CellValue := bget b p.1 p.2

/-- `srcIdxN` with a (row, column) pair. -/
def srcStep (q : Fin 4) (d : Dir) (p : Nat × Nat) : Nat × Nat := srcIdxN q d p.1 p.2

theorem bgetP_eq (b : Board) (y x : Fin 6) : bgetP b (y.val, x.val) = b y x :=
  bget_eq b y x

theorem rotateQuadrant_applyP (b : Board) (q : Fin 4) (d : Dir) (y x : Fin 6) :
    rotateQuadrant b q d y x = bgetP b (srcStep q d (y.val, x.val)) :=
  rotateQuadrant_apply b q d y x

theorem bgetP_rotateQuadrant (b : Board) (q : Fin 4) (d : Dir) (p : Nat × Nat) :
    bgetP (rotateQuadrant b q d) p = bgetP b (srcStep q d p) :=
  bget_rotateQuadrant b q d p.1 p.2

/-- The reverse direction, used as the inverse of a rotation. -/
def oppDir : Dir → Dir
  | .cw => .ccw
  | .ccw => .cw

theorem srcStep_four (q : Fin 4) (d : Dir) (y x : Fin 6) :
    srcStep q d (srcStep q d (srcStep q d (srcStep q d (y.val, x.val)))) = (y.val, x.val) := by
  revert q d y x; decide

theorem srcStep_opp (q : Fin 4) (d : Dir) (y x : Fin 6) :
    srcStep q (oppDir d) (srcStep q d (y.val, x.val)) = (y.val, x.val) := by
  revert q d y x; decide

/-- Board used to instantiate witnesses: four white stones on row 2
(cells `(0,2)`-`(3,2)`), one black stone at `(0,0)`. -/
def demoBoard : Board := fun y x =>
  if y.val = 2 ∧ x.val < 4 then some .white
  else if y.val = 0 ∧ x.val = 0 then some .black
  else none

/-- C3: rotating a quadrant four times in the same direction, or once
clockwise and once counter-clockwise (in either order), restores the
original board. -/
theorem rotateQuadrant_four_and_inverse (b : Board) (q : Fin 4) (d : Dir) :
    rotateQuadrant (rotateQuadrant (rotateQuadrant (rotateQuadrant b q d) q d) q d) q d = b ∧
    rotateQuadrant (rotateQuadrant b q .cw) q .ccw = b ∧
    rotateQuadrant (rotateQuadrant b q .ccw) q .cw = b := by
  refine ⟨?_, ?_, ?_⟩ <;> funext y x
  · rw [rotateQuadrant_applyP, bgetP_rotateQuadrant, bgetP_rotateQuadrant,
      bgetP_rotateQuadrant, srcStep_four]
    exact bgetP_eq b y x
  · rw [rotateQuadrant_applyP, bgetP_rotateQuadrant]
    rw [show srcStep q .cw (srcStep q .ccw (y.val, x.val)) = (y.val, x.val) from
      srcStep_opp q .ccw y x]
    exact bgetP_eq b y x
  · rw [rotateQuadrant_applyP, bgetP_rotateQuadrant]
    rw [show srcStep q .ccw (srcStep q .cw (y.val, x.val)) = (y.val, x.val) from
      srcStep_opp q .cw y x]
    exact bgetP_eq b y x

/-- C4: a rotation changes nothing outside the target quadrant's 3×3
extent. -/
theorem rotateQuadrant_frame (b : Board) (q : Fin 4) (d : Dir) (y x : Fin 6)
    (h : ¬ inQuadrant q y.val x.val) : rotateQuadrant b q d y x = b y x := by
  unfold rotateQuadrant
  rw [if_neg h]

theorem rotateQuadrant_frame_witness :
    ¬ inQuadrant 0 5 5 ∧ rotateQuadrant demoBoard 0 .cw 5 5 = demoBoard 5 5 :=
  ⟨by decide, rotateQuadrant_frame demoBoard 0 .cw 5 5 (by decide)⟩

theorem srcStep_cw_target (q : Fin 4) :
    ∀ lx < 3, ∀ ly < 3,
      srcIdxN q .cw (quadOy q + lx) (quadOx q + (2 - ly)) = (quadOy q + ly, quadOx q + lx) := by
  revert q; decide

theorem srcStep_ccw_target (q : Fin 4) :
    ∀ lx < 3, ∀ ly < 3,
      srcIdxN q .ccw (quadOy q + (2 - lx)) (quadOx q + ly) = (quadOy q + ly, quadOx q + lx) := by
  revert q; decide

/-- C1: with the quadrant origin at `(quadOx q, quadOy q)`, the stone at
local `(lx, ly)` is found, after a clockwise rotation, at local
`(2 - ly, lx)`, and after a counter-clockwise rotation at local
`(ly, 2 - lx)` (positions written `(x, y)`, board reads `(row, column)`). -/
theorem rotateQuadrant_maps (b : Board) (q : Fin 4) (lx ly : Nat)
    (hx : lx < 3) (hy : ly < 3) :
    bget (rotateQuadrant b q .cw) (quadOy q + lx) (quadOx q + (2 - ly)) =
      bget b (quadOy q + ly) (quadOx q + lx) ∧
    bget (rotateQuadrant b q .ccw) (quadOy q + (2 - lx)) (quadOx q + ly) =
      bget b (quadOy q + ly) (quadOx q + lx) := by
  constructor
  · rw [bget_rotateQuadrant, srcStep_cw_target q lx hx ly hy]
  · rw [bget_rotateQuadrant, srcStep_ccw_target q lx hx ly hy]

theorem rotateQuadrant_maps_witness :
    (0 : Nat) < 3 ∧ (1 : Nat) < 3 ∧
      (bget (rotateQuadrant demoBoard 1 .cw) (quadOy 1 + 0) (quadOx 1 + (2 - 1)) =
          bget demoBoard (quadOy 1 + 1) (quadOx 1 + 0) ∧
        bget (rotateQuadrant demoBoard 1 .ccw) (quadOy 1 + (2 - 0)) (quadOx 1 + 1) =
          bget demoBoard (quadOy 1 + 1) (quadOx 1 + 0)) :=
  ⟨by decide, by decide, rotateQuadrant_maps demoBoard 1 0 1 (by decide) (by decide)⟩

/-! ### Stone counting -/

/-- Number of non-empty cells of a board. -/
def countNonEmpty (b : Board) : Nat :=
  (Finset.univ.filter fun p : Fin 6 × Fin 6 => b p.1 p.2 ≠ none).card

theorem srcIdxN_lt (q : Fin 4) (d : Dir) (y x : Fin 6) :
    (srcIdxN q d y.val x.val).1 < 6 ∧ (srcIdxN q d y.val x.val).2 < 6 := by
  revert q d y x; decide

/-- The source coordinate of a rotation, as a map on board cells. -/
def srcF (q : Fin 4) (d : Dir) (p : Fin 6 × Fin 6) : Fin 6 × Fin 6 :=
  ⟨⟨(srcIdxN q d p.1.val p.2.val).1, (srcIdxN_lt q d p.1 p.2).1⟩,
    ⟨(srcIdxN q d p.1.val p.2.val).2, (srcIdxN_lt q d p.1 p.2).2⟩⟩

theorem srcF_opp_srcF (q : Fin 4) (d : Dir) (p : Fin 6 × Fin 6) :
    srcF q (oppDir d) (srcF q d p) = p := by
  revert q d p; decide

theorem srcF_srcF_opp (q : Fin 4) (d : Dir) (p : Fin 6 × Fin 6) :
    srcF q d (srcF q (oppDir d) p) = p := by
  revert q d p; decide

theorem rotateQuadrant_pointwise (b : Board) (q : Fin 4) (d : Dir) (p : Fin 6 × Fin 6) :
    rotateQuadrant b q d p.1 p.2 = b (srcF q d p).1 (srcF q d p).2 := by
  rw [rotateQuadrant_apply]
  unfold bget
  rw [dif_pos (srcIdxN_lt q d p.1 p.2).1, dif_pos (srcIdxN_lt q d p.1 p.2).2]
  rfl

theorem countNonEmpty_rotateQuadrant (b : Board) (q : Fin 4) (d : Dir) :
    countNonEmpty (rotateQuadrant b q d) = countNonEmpty b := by
  unfold countNonEmpty
  apply Finset.card_bij (fun p _ => srcF q d p)
  · intro a ha
    simp only [Finset.mem_filter, Finset.mem_univ, true_and] at ha ⊢
    rwa [rotateQuadrant_pointwise] at ha
  · intro a₁ _ a₂ _ h
    have h2 := congrArg (srcF q (oppDir d)) h
    rwa [srcF_opp_srcF, srcF_opp_srcF] at h2
  · intro c hc
    refine ⟨srcF q (oppDir d) c, ?_, srcF_srcF_opp q d c⟩
    simp only [Finset.mem_filter, Finset.mem_univ, true_and] at hc ⊢
    rw [rotateQuadrant_pointwise, srcF_srcF_opp]
    exact hc

theorem countNonEmpty_setCell_of_empty (b : Board) (pos : Pos) (pl : Player)
    (h : b pos.y pos.x = none) :
    countNonEmpty (setCell b pos (some pl)) = countNonEmpty b + 1 := by
  unfold countNonEmpty
  have hset : (Finset.univ.filter fun p : Fin 6 × Fin 6 => setCell b pos (some pl) p.1 p.2 ≠ none) =
      insert (pos.y, pos.x) (Finset.univ.filter fun p : Fin 6 × Fin 6 => b p.1 p.2 ≠ none) := by
    ext p
    simp only [Finset.mem_filter, Finset.mem_univ, true_and, Finset.mem_insert, setCell]
    by_cases hp : p.1 = pos.y ∧ p.2 = pos.x
    · rw [if_pos hp]
      simp only [hp.1, hp.2]
      constructor
      · intro _
        exact Or.inl (Prod.ext hp.1 hp.2)
      · intro _
        exact Option.some_ne_none pl
    · rw [if_neg hp]
      constructor
      · intro hb
        exact Or.inr hb
      · intro hor
        rcases hor with heq | hb
        · exact absurd ⟨congrArg Prod.fst heq, congrArg Prod.snd heq⟩ hp
        · exact hb
  rw [hset, Finset.card_insert_of_not_mem]
  simp only [Finset.mem_filter, Finset.mem_univ, true_and, not_not]
  exact h

theorem countNonEmpty_setCell_of_occupied (b : Board) (pos : Pos) (pl : Player)
    (h : b pos.y pos.x ≠ none) :
    countNonEmpty (setCell b pos (some pl)) = countNonEmpty b := by
  unfold countNonEmpty
  congr 1
  ext p
  simp only [Finset.mem_filter, Finset.mem_univ, true_and, setCell]
  by_cases hp : p.1 = pos.y ∧ p.2 = pos.x
  · rw [if_pos hp, hp.1, hp.2]
    constructor
    · intro _
      exact h
    · intro _
      exact Option.some_ne_none pl
  · rw [if_neg hp]

/-- C5: `applyMove` yields at most one more non-empty cell, and exactly one
more when the target cell is empty. -/
theorem applyMove_count (b : Board) (pl : Player) (pos : Pos) (q : Fin 4) (d : Dir) :
    countNonEmpty (applyMove b pl pos q d).board ≤ countNonEmpty b + 1 ∧
      (b pos.y pos.x = none →
        countNonEmpty (applyMove b pl pos q d).board = countNonEmpty b + 1) := by
  have hb : (applyMove b pl pos q d).board = rotateQuadrant (setCell b pos (some pl)) q d := rfl
  rw [hb, countNonEmpty_rotateQuadrant]
  constructor
  · by_cases h : b pos.y pos.x = none
    · rw [countNonEmpty_setCell_of_empty b pos pl h]
    · rw [countNonEmpty_setCell_of_occupied b pos pl h]
      omega
  · intro h
    exact countNonEmpty_setCell_of_empty b pos pl h

theorem applyMove_count_witness :
    createEmptyBoard (0 : Fin 6) (0 : Fin 6) = none ∧
      countNonEmpty (applyMove createEmptyBoard .white ⟨0, 0⟩ 0 .cw).board =
        countNonEmpty createEmptyBoard + 1 :=
  ⟨rfl, (applyMove_count createEmptyBoard .white ⟨0, 0⟩ 0 .cw).2 rfl⟩

/-! ### Move generation order and count -/

/-- All board positions in the scan order of `generateMoves`: row-major,
`y` outer 0..5, `x` inner 0..5. -/
def rowMajorPositions : List Pos :=
  (List.finRange 6).flatMap fun y => (List.finRange 6).map fun x => ⟨x, y⟩

/-- The 8 candidates produced for one empty cell: quadrants 0→3,
clockwise pushed before counter-clockwise. -/
def movesForCell (pos : Pos) : List Move :=
  (List.finRange 4).flatMap fun q => [⟨pos, q, .cw⟩, ⟨pos, q, .ccw⟩]

theorem length_movesForCell (pos : Pos) : (movesForCell pos).length = 8 := rfl

theorem length_flatMap_movesForCell (l : List Pos) :
    (l.flatMap movesForCell).length = 8 * l.length := by
  induction l with
  | nil => rfl
  | cons a t ih =>
    rw [List.flatMap_cons, List.length_append, ih, length_movesForCell, List.length_cons]
    omega

theorem generateMoves_row (b : Board) (y : Fin 6) (l : List (Fin 6)) :
    (l.flatMap fun x =>
        if b y x ≠ none then []
        else (List.finRange 4).flatMap fun q =>
          [⟨⟨x, y⟩, q, .cw⟩, ⟨⟨x, y⟩, q, .ccw⟩]) =
      ((l.map fun x => (⟨x, y⟩ : Pos)).filter fun pos =>
        decide (b pos.y pos.x = none)).flatMap movesForCell := by
  induction l with
  | nil => rfl
  | cons a t ih =>
    rw [List.flatMap_cons, List.map_cons, List.filter_cons]
    by_cases h : b y a = none
    · rw [if_neg (by simpa using h), if_pos (by simpa using h), List.flatMap_cons, ih]
      rfl
    · rw [if_pos (by simpa using h), if_neg (by simpa using h), ih]
      rfl

set_option maxRecDepth 4000 in
/-- C6: `generateMoves` is exactly: scan the cells row-major, keep the
empty ones, and emit for each the 8 candidates (quadrant 0→3, cw before
ccw); hence 8 candidates per empty cell, and 288 on the empty board. -/
theorem generateMoves_order_and_count (b : Board) :
    generateMoves b =
      (rowMajorPositions.filter fun pos => decide (b pos.y pos.x = none)).flatMap
        movesForCell ∧
    (generateMoves b).length =
      8 * (rowMajorPositions.filter fun pos => decide (b pos.y pos.x = none)).length ∧
    (generateMoves createEmptyBoard).length = 288 := by
  have horder : generateMoves b =
      (rowMajorPositions.filter fun pos => decide (b pos.y pos.x = none)).flatMap
        movesForCell := by
    unfold generateMoves rowMajorPositions
    rw [List.filter_flatMap, List.flatMap_assoc]
    exact congrArg _ (funext fun y => generateMoves_row b y (List.finRange 6))
  refine ⟨horder, ?_, by decide⟩
  rw [horder, length_flatMap_movesForCell]

/-! ### AI move selection -/

/-- The board of the spec's AI scenario: four white stones on row 2 at
`(0,2)`-`(3,2)`, every other cell empty. -/
def fourBoard : Board := fun y x => if y.val = 2 ∧ x.val < 4 then some .white else none

/-- A degenerate random source: fallback index 0, zero jitter. -/
def rng0 : Rng where
  pick := fun _ => 0
  pick_lt := fun _ hn => hn
  pick_zero := rfl
  jitter := fun _ => 0
  jitter_nonneg := fun _ => le_refl 0
  jitter_lt := fun _ => by norm_num

/-- C7: whenever some candidate (in `generateMoves`' order) simulates to
an immediate win for the AI colour, `chooseAiMove` returns the first such
candidate, independently of the random draws. -/
theorem chooseAiMove_first_win (rng : Rng) (b : Board) (ai : Player) (m : Move)
    (h : (generateMoves b).find?
        (fun mv => (applyMove b ai mv.pos mv.quadrant mv.dir).winner == winOutcome ai) =
      some m) :
    chooseAiMove rng b ai = some m := by
  unfold chooseAiMove
  simp only [h]

set_option maxRecDepth 10000 in
theorem chooseAiMove_first_win_witness :
    (generateMoves fourBoard).find?
        (fun mv => (applyMove fourBoard .white mv.pos mv.quadrant mv.dir).winner ==
          winOutcome .white) = some ⟨⟨4, 2⟩, 2, .cw⟩ ∧
      chooseAiMove rng0 fourBoard .white = some ⟨⟨4, 2⟩, 2, .cw⟩ ∧
      (applyMove fourBoard .white ⟨4, 2⟩ 2 .cw).winner = winOutcome .white :=
  ⟨by decide,
    chooseAiMove_first_win rng0 fourBoard .white ⟨⟨4, 2⟩, 2, .cw⟩ (by decide),
    by decide⟩

/-- The full board used for the no-legal-moves analysis. -/
def fullBoard : Board := fun _ _ => some .black

/-- C8: on a board with no empty cell, `generateMoves` is empty and
`chooseAiMove` returns the `undefined` fallback
`candidates[Math.floor(Math.random() * 0)]` of an empty list — modelled
as `none` — instead of signalling a NoLegalMoves condition. -/
theorem chooseAiMove_full_board (rng : Rng) (ai : Player) :
    generateMoves fullBoard = [] ∧ chooseAiMove rng fullBoard ai = none := by
  have hcand : generateMoves fullBoard = [] := by decide
  refine ⟨hcand, ?_⟩
  unfold chooseAiMove
  rw [hcand]
  simp only [List.find?_nil, List.length_nil, List.enum_nil]
  rw [rng.pick_zero]
  rfl

/-! ### applyMove validates nothing -/

/-- C9 counterexample: with the target `(0,0)` already holding a black
stone, `applyMove` is not a no-op — the black stone is overwritten by
white and the board changes. -/
theorem applyMove_occupied_changes_board :
    demoBoard 0 0 = some .black ∧
      (applyMove demoBoard .white ⟨0, 0⟩ 0 .cw).board ≠ demoBoard := by
  refine ⟨rfl, fun hcontra => ?_⟩
  have h := congrFun (congrFun hcontra 0) 2
  exact absurd h (by decide)

/-- C9 amended: `applyMove` performs no occupancy validation — the call
proceeds unconditionally, writing the acting player's stone over the
occupied target and rotating, rather than rejecting the call. -/
theorem applyMove_no_validation (b : Board) (pl : Player) (pos : Pos) (q : Fin 4) (d : Dir)
    (h : b pos.y pos.x ≠ none) :
    (applyMove b pl pos q d).board = rotateQuadrant (setCell b pos (some pl)) q d ∧
      setCell b pos (some pl) pos.y pos.x = some pl :=
  ⟨rfl, by simp [setCell]⟩

theorem applyMove_no_validation_witness :
    demoBoard 0 0 ≠ none ∧
      ((applyMove demoBoard .white ⟨0, 0⟩ 0 .cw).board =
          rotateQuadrant (setCell demoBoard ⟨0, 0⟩ (some .white)) 0 .cw ∧
        setCell demoBoard ⟨0, 0⟩ (some .white) 0 0 = some .white) :=
  ⟨by decide, applyMove_no_validation demoBoard .white ⟨0, 0⟩ 0 .cw (by decide)⟩

/-! ### Window characterisation of five-in-a-row -/

/-- The probe of `hasFive` anchored at `(x, y)` towards `d` stays in
bounds (cells 1..4; the anchor itself is in range by construction). -/
def probeOK (x y : Nat) (d : Int × Int) : Bool :=
  (List.range 4).all fun k : Nat =>
    inBounds ((x : Int) + d.1 * ((k : Int) + 1)) ((y : Int) + d.2 * ((k : Int) + 1))

/-- The five positions (as `(x, y)` pairs) of the window anchored at
`(x, y)` towards `d`. -/
def windowOf (x y : Nat) (d : Int × Int) : List (Int × Int) :=
  (List.range 5).map fun k : Nat =>
    ((x : Int) + d.1 * (k : Int), (y : Int) + d.2 * (k : Int))

/-- Every in-bounds 5-cell window of the 6×6 board — one per in-bounds
probe of `hasFive`. -/
def allWindows : List (List (Int × Int)) :=
  (List.range 6).flatMap fun y =>
    (List.range 6).flatMap fun x =>
      dirsList.filterMap fun d => if probeOK x y d then some (windowOf x y d) else none

/-- A five-in-a-row for player `p`: some in-bounds 5-cell window (along a
row, column, or diagonal) holds `p` on all five cells. -/
abbrev FiveInRow (b : Board) (p : Player) : Prop :=
  ∃ w ∈ allWindows, ∀ pos ∈ w, bgetI b pos.2 pos.1 = some p

/-- The board has no empty cell. -/
abbrev NoEmptyCell (b : Board) : Prop := ∀ (y x : Fin 6), b y x ≠ none

theorem bgetI_natCast (b : Board) (y x : Nat) (hy : y < 6) (hx : x < 6) :
    bgetI b (y : Int) (x : Int) = bget b y x := by
  unfold bgetI bget
  rw [dif_pos ⟨Int.natCast_nonneg y, by exact_mod_cast hy⟩,
    dif_pos ⟨Int.natCast_nonneg x, by exact_mod_cast hx⟩, dif_pos hy, dif_pos hx]
  congr 1

theorem forall_lt_five_split (P : Nat → Prop) :
    (∀ k < 5, P k) ↔ P 0 ∧ ∀ j < 4, P (j + 1) := by
  constructor
  · intro h
    exact ⟨h 0 (by omega), fun j hj => h (j + 1) (by omega)⟩
  · rintro ⟨h0, hs⟩ k hk
    match k with
    | 0 => exact h0
    | j + 1 => exact hs j (by omega)

/-- The per-`(x, y, d)` core of the probe/window equivalence. -/
theorem probe_window_equiv (b : Board) (p : Player) (x y : Nat) (d : Int × Int)
    (hx : x < 6) (hy : y < 6) :
    (bget b y x = some p ∧
        ∀ k : Nat, k < 4 →
          inBounds ((x : Int) + d.1 * ((k : Int) + 1)) ((y : Int) + d.2 * ((k : Int) + 1)) = true ∧
          bgetI b ((y : Int) + d.2 * ((k : Int) + 1)) ((x : Int) + d.1 * ((k : Int) + 1)) = some p) ↔
      (probeOK x y d = true ∧ ∀ pos ∈ windowOf x y d, bgetI b pos.2 pos.1 = some p) := by
  have hwin : (∀ pos ∈ windowOf x y d, bgetI b pos.2 pos.1 = some p) ↔
      ∀ k : Nat, k < 5 →
        bgetI b ((y : Int) + d.2 * (k : Int)) ((x : Int) + d.1 * (k : Int)) = some p := by
    unfold windowOf
    rw [List.forall_mem_map]
    constructor
    · intro h k hk
      exact h k (List.mem_range.mpr hk)
    · intro h k hk
      exact h k (List.mem_range.mp hk)
  have hprobe : probeOK x y d = true ↔
      ∀ k : Nat, k < 4 →
        inBounds ((x : Int) + d.1 * ((k : Int) + 1)) ((y : Int) + d.2 * ((k : Int) + 1)) = true := by
    unfold probeOK
    rw [List.all_eq_true]
    constructor
    · intro h k hk
      exact h k (List.mem_range.mpr hk)
    · intro h k hk
      exact h k (List.mem_range.mp hk)
  rw [hwin, hprobe, forall_lt_five_split]
  have hcell0 : bgetI b ((y : Int) + d.2 * ((0 : Nat) : Int)) ((x : Int) + d.1 * ((0 : Nat) : Int)) =
      bget b y x := by
    simp only [Nat.cast_zero, mul_zero, add_zero]
    exact bgetI_natCast b y x hy hx
  have hshift : ∀ j : Nat,
      ((x : Int) + d.1 * (((j + 1 : Nat) : Int)), (y : Int) + d.2 * (((j + 1 : Nat) : Int))) =
        ((x : Int) + d.1 * ((j : Int) + 1), (y : Int) + d.2 * ((j : Int) + 1)) := by
    intro j
    push_cast
    ring_nf
  constructor
  · rintro ⟨hanchor, hrest⟩
    refine ⟨fun k hk => (hrest k hk).1, hcell0.trans hanchor, fun j hj => ?_⟩
    have := (hrest j hj).2
    have hj1 := congrArg Prod.fst (hshift j)
    have hj2 := congrArg Prod.snd (hshift j)
    simp only at hj1 hj2
    rw [hj1, hj2]
    exact this
  · rintro ⟨hbounds, h0, hrest⟩
    refine ⟨hcell0.symm.trans h0, fun k hk => ⟨hbounds k hk, ?_⟩⟩
    have := hrest k hk
    have hj1 := congrArg Prod.fst (hshift k)
    have hj2 := congrArg Prod.snd (hshift k)
    simp only at hj1 hj2
    rw [← hj1, ← hj2]
    exact this

theorem hasFive_iff_fiveInRow (b : Board) (p : Player) :
    hasFive b p = true ↔ FiveInRow b p := by
  unfold hasFive FiveInRow allWindows
  simp only [List.any_eq_true, List.all_eq_true, List.mem_range, Bool.and_eq_true, beq_iff_eq,
    List.mem_flatMap, List.mem_filterMap, Option.ite_none_right_eq_some, Option.some.injEq]
  constructor
  · rintro ⟨y, hy, x, hx, hcell, d, hd, hrest⟩
    have hmp := (probe_window_equiv b p x y d hx hy).mp ⟨hcell, hrest⟩
    exact ⟨windowOf x y d, ⟨y, hy, x, hx, d, hd, hmp.1, rfl⟩, hmp.2⟩
  · rintro ⟨w, ⟨y, hy, x, hx, d, hd, hOK, hw⟩, hall⟩
    subst hw
    have hmp := (probe_window_equiv b p x y d hx hy).mpr ⟨hOK, hall⟩
    exact ⟨y, hy, x, hx, hmp.1, d, hd, hmp.2⟩

theorem prefix_big_to_window {α : Type} (f : α → Bool) (l s : List α)
    (hpre : s <+: l) (hlen : 5 ≤ s.length) (hall : ∀ a ∈ s, f a = true) :
    ∃ s', s' <:+: l ∧ s'.length = 5 ∧ ∀ a ∈ s', f a = true := by
  refine ⟨s.take 5, ((List.take_prefix 5 s).trans hpre).isInfix, ?_, ?_⟩
  · rw [List.length_take]
    omega
  · intro a ha
    exact hall a ((List.take_prefix 5 s).subset ha)

theorem runFive_iff {α : Type} (f : α → Bool) :
    ∀ (l : List α) (r : Nat), r < 5 →
      (runFive f l r = true ↔
        (∃ s, s <+: l ∧ 5 ≤ r + s.length ∧ ∀ a ∈ s, f a = true) ∨
        (∃ s, s <:+: l ∧ s.length = 5 ∧ ∀ a ∈ s, f a = true)) := by
  intro l
  induction l with
  | nil =>
    intro r hr
    constructor
    · intro h
      exact absurd h (by unfold runFive; simp)
    · rintro (⟨s, hs, hlen, _⟩ | ⟨s, hs, hlen, _⟩)
      · rw [List.prefix_nil.mp hs] at hlen
        simp at hlen
        omega
      · rw [List.infix_nil.mp hs] at hlen
        simp at hlen
  | cons a t ih =>
    intro r hr
    by_cases hfa : f a = true
    · by_cases hfive : 5 ≤ r + 1
      · have hl : runFive f (a :: t) r = true := by
          simp [runFive, hfa, hfive]
        rw [hl]
        simp only [true_iff]
        refine Or.inl ⟨[a], ⟨t, rfl⟩, by simpa using hfive, ?_⟩
        intro z hz
        rw [List.mem_singleton.mp hz]
        exact hfa
      · have hl : runFive f (a :: t) r = runFive f t (r + 1) := by
          simp [runFive, hfa, hfive]
        rw [hl, ih (r + 1) (by omega)]
        constructor
        · rintro (⟨s, hpre, hlen, hall⟩ | hwin)
          · refine Or.inl ⟨a :: s, ?_, ?_, ?_⟩
            · exact List.cons_prefix_cons.mpr ⟨rfl, hpre⟩
            · simp only [List.length_cons]
              omega
            · intro z hz
              rcases List.mem_cons.mp hz with hz | hz
              · rw [hz]; exact hfa
              · exact hall z hz
          · obtain ⟨s, hinf, hlen, hall⟩ := hwin
            exact Or.inr ⟨s, List.infix_cons_iff.mpr (Or.inr hinf), hlen, hall⟩
        · rintro (⟨s, hpre, hlen, hall⟩ | ⟨s, hinf, hlen, hall⟩)
          · cases s with
            | nil =>
              simp only [List.length_nil, Nat.add_zero] at hlen
              omega
            | cons b s' =>
              obtain ⟨hba, hs'⟩ := List.cons_prefix_cons.mp hpre
              refine Or.inl ⟨s', hs', ?_, ?_⟩
              · simp only [List.length_cons] at hlen
                omega
              · intro z hz
                exact hall z (List.mem_cons_of_mem b hz)
          · rcases List.infix_cons_iff.mp hinf with hpre | hinf'
            · cases s with
              | nil => simp at hlen
              | cons b s' =>
                obtain ⟨hba, hs'⟩ := List.cons_prefix_cons.mp hpre
                refine Or.inl ⟨s', hs', ?_, ?_⟩
                · simp only [List.length_cons] at hlen
                  omega
                · intro z hz
                  exact hall z (List.mem_cons_of_mem b hz)
            · exact Or.inr ⟨s, hinf', hlen, hall⟩
    · have hl : runFive f (a :: t) r = runFive f t 0 := by
        simp [runFive, hfa]
      rw [hl, ih 0 (by omega)]
      constructor
      · rintro (⟨s, hpre, hlen, hall⟩ | ⟨s, hinf, hlen, hall⟩)
        · obtain ⟨s', h1, h2, h3⟩ :=
            prefix_big_to_window f t s hpre (by omega) hall
          exact Or.inr ⟨s', List.infix_cons_iff.mpr (Or.inr h1), h2, h3⟩
        · exact Or.inr ⟨s, List.infix_cons_iff.mpr (Or.inr hinf), hlen, hall⟩
      · rintro (⟨s, hpre, hlen, hall⟩ | ⟨s, hinf, hlen, hall⟩)
        · cases s with
          | nil =>
            simp only [List.length_nil, Nat.add_zero] at hlen
            omega
          | cons b s' =>
            obtain ⟨hba, _⟩ := List.cons_prefix_cons.mp hpre
            have := hall b (List.mem_cons_self b s')
            rw [hba] at this
            rw [this] at hfa
            exact absurd rfl hfa
        · rcases List.infix_cons_iff.mp hinf with hpre | hinf'
          · cases s with
            | nil => simp at hlen
            | cons b s' =>
              obtain ⟨hba, _⟩ := List.cons_prefix_cons.mp hpre
              have := hall b (List.mem_cons_self b s')
              rw [hba] at this
              rw [this] at hfa
              exact absurd rfl hfa
          · exact Or.inr ⟨s, hinf', hlen, hall⟩

theorem runFive_zero_iff {α : Type} (f : α → Bool) (l : List α) :
    runFive f l 0 = true ↔ ∃ s, s <:+: l ∧ s.length = 5 ∧ ∀ a ∈ s, f a = true := by
  rw [runFive_iff f l 0 (by omega)]
  constructor
  · rintro (⟨s, hpre, hlen, hall⟩ | hwin)
    · exact prefix_big_to_window f l s hpre (by omega) hall
    · exact hwin
  · intro h
    exact Or.inr h

theorem infix_eq_drop_take {α : Type} (s l : List α) (h : s <:+: l) :
    ∃ i, i + s.length ≤ l.length ∧ s = (l.drop i).take s.length := by
  obtain ⟨t, u, rfl⟩ := h
  refine ⟨t.length, ?_, ?_⟩
  · simp only [List.length_append]
    omega
  · rw [List.append_assoc t s u, List.drop_left, List.take_left]

set_option maxRecDepth 10000 in
theorem seg_mem_allWindows :
    ∀ line ∈ linesList, ∀ i ∈ List.range line.length,
      i + 5 ≤ line.length →
        ((line.drop i).take 5 ∈ allWindows ∨ ((line.drop i).take 5).reverse ∈ allWindows) := by
  decide

set_option maxRecDepth 10000 in
theorem allWindows_from_lines :
    ∀ w ∈ allWindows, ∃ line ∈ linesList, ∃ i ∈ List.range line.length,
      i + 5 ≤ line.length ∧
        ((line.drop i).take 5 = w ∨ (line.drop i).take 5 = w.reverse) := by
  decide

/-- The per-colour accumulation of the second copy's `checkWinner`:
some maximal line contains a run of length ≥ 5. -/
def anyLineFive (b : Board) (p : Player) : Bool := linesList.any (lineHasFive b p)

theorem anyLineFive_iff_fiveInRow (b : Board) (p : Player) :
    anyLineFive b p = true ↔ FiveInRow b p := by
  unfold anyLineFive lineHasFive
  rw [List.any_eq_true]
  constructor
  · rintro ⟨line, hline, hrun⟩
    rw [runFive_zero_iff] at hrun
    obtain ⟨s, hinf, hlen, hall⟩ := hrun
    obtain ⟨i, hle, hs⟩ := infix_eq_drop_take s line hinf
    rw [hlen] at hle hs
    have hi : i ∈ List.range line.length := List.mem_range.mpr (by omega)
    rcases seg_mem_allWindows line hline i hi hle with hmem | hmem
    · refine ⟨(line.drop i).take 5, hmem, ?_⟩
      intro pos hpos
      rw [← hs] at hpos
      exact beq_iff_eq.mp (hall pos hpos)
    · refine ⟨((line.drop i).take 5).reverse, hmem, ?_⟩
      intro pos hpos
      rw [List.mem_reverse, ← hs] at hpos
      exact beq_iff_eq.mp (hall pos hpos)
  · rintro ⟨w, hw, hall⟩
    obtain ⟨line, hline, i, hi, hle, hcase⟩ := allWindows_from_lines w hw
    refine ⟨line, hline, ?_⟩
    rw [runFive_zero_iff]
    refine ⟨(line.drop i).take 5, ?_, ?_, ?_⟩
    · exact ((List.take_prefix 5 (line.drop i)).isInfix).trans (List.drop_suffix i line).isInfix
    · rw [List.length_take, List.length_drop]
      omega
    · intro pos hpos
      rcases hcase with hc | hc
      · rw [hc] at hpos
        exact beq_iff_eq.mpr (hall pos hpos)
      · rw [hc, List.mem_reverse] at hpos
        exact beq_iff_eq.mpr (hall pos hpos)

theorem hasFive_eq_lineScan (b : Board) (p : Player) :
    hasFive b p = linesList.any (lineHasFive b p) := by
  rw [Bool.eq_iff_iff, hasFive_iff_fiveInRow]
  exact (anyLineFive_iff_fiveInRow b p).symm

theorem isFull_iff_noEmpty (b : Board) : isFull b = true ↔ NoEmptyCell b := by
  unfold isFull
  simp only [List.all_eq_true, List.mem_range, Bool.not_eq_true', beq_eq_false_iff_ne]
  constructor
  · intro h y x
    have := h y.val y.isLt x.val x.isLt
    rwa [bget_eq] at this
  · intro h y hy x hx
    rw [show bget b y x = b ⟨y, hy⟩ ⟨x, hx⟩ from bget_eq b ⟨y, hy⟩ ⟨x, hx⟩]
    exact h ⟨y, hy⟩ ⟨x, hx⟩

theorem filled_iff_noEmpty (b : Board) :
    ((List.finRange 6).all fun y => (List.finRange 6).all fun x => !(b y x == none)) = true ↔
      NoEmptyCell b := by
  simp only [List.all_eq_true, List.mem_finRange, Bool.not_eq_true', beq_eq_false_iff_ne]
  constructor
  · intro h y x
    exact h y trivial x trivial
  · intro h y _ x _
    exact h y x

theorem isFull_eq_every (b : Board) :
    isFull b = ((List.finRange 6).all fun y => (List.finRange 6).all fun x => !(b y x == none)) := by
  rw [Bool.eq_iff_iff, isFull_iff_noEmpty]
  exact (filled_iff_noEmpty b).symm

/-- C10: the two checkWinner implementations agree on every board. -/
theorem checkWinner_eq_checkWinner2 (b : Board) : checkWinner b = checkWinner2 b := by
  simp only [checkWinner, checkWinner2]
  rw [hasFive_eq_lineScan b .white, hasFive_eq_lineScan b .black, isFull_eq_every b]

/-- C2: combination rule. -/
theorem checkWinner_combination (b : Board) :
    checkWinner b =
      if FiveInRow b .white ∧ FiveInRow b .black then Outcome.draw
      else if FiveInRow b .white then Outcome.white
      else if FiveInRow b .black then Outcome.black
      else if NoEmptyCell b then Outcome.draw
      else Outcome.ongoing := by
  simp only [checkWinner]
  by_cases hw : FiveInRow b .white <;> by_cases hb : FiveInRow b .black <;>
    by_cases hf : NoEmptyCell b <;>
      simp [hasFive_iff_fiveInRow, isFull_iff_noEmpty, hw, hb, hf]

end Pentago
